import Mathlib

/-!
Verification of the pyusd-layerzero-cli core against its specification.

The TypeScript sources are shallowly embedded:
* JS `bigint` values become `ℤ` (arbitrary-precision, `/` on bigint is
  truncation toward zero, modelled with `Int.tdiv`);
* JS `number` values are IEEE-754 binary64 doubles; a variable holding a
  double becomes a `ℚ` (every finite double is rational), and the one
  arithmetic operation on doubles the core performs — the multiplication
  inside `calculateMinAmount` — is modelled by `fl64`, the binary64
  rounding (round to nearest, ties to even) of the exact product;
* hex byte strings (`viem` `Hex` values used as byte blobs) become `List ℕ`
  with each entry a byte;
* JS strings that are compared or parsed character by character become
  `String` / `List Char`, or `List ℕ` of UTF-16 code units where only the
  code units matter;
* throwing functions return `Option`/`Except`, `none`/`.error` being the throw.
-/

namespace PyusdLz

/-! ## Amount/Address codec: `src/utils/address.ts`

`addressToBytes32` is viem `pad(address, {size: 32})` (left-pad with zero
bytes, throwing `SizeExceedsPaddingSizeError` when the input is longer than
the target size); `bytes32ToAddress` is viem `slice(bytes32, 12, 32)`
(plain slice; viem only asserts the start offset is inside the value). -/

/-- viem `pad(value, {size})`, default direction `left`:
left-pad with zero bytes; throws when `value` is longer than `size`. -/
def padHex (value : List ℕ) (size : ℕ) : Option (List ℕ) :=
  if size < value.length then none
  else some (List.replicate (size - value.length) 0 ++ value)

/-- viem `slice(value, start, end)` (non-strict): throws only when
`start > 0 && start > size(value) - 1`; otherwise `value.slice(start, end)`. -/
def sliceHex (value : List ℕ) (start finish : ℕ) : Option (List ℕ) :=
  if 0 < start ∧ value.length ≤ start then none
  else some ((value.drop start).take (finish - start))

/-- `addressToBytes32(address) = pad(address, {size: 32})`. -/
def addressToBytes32 (address : List ℕ) : Option (List ℕ) :=
  padHex address 32

/-- `bytes32ToAddress(bytes32) = slice(bytes32, 12, 32)`. -/
def bytes32ToAddress (bytes32 : List ℕ) : Option (List ℕ) :=
  sliceHex bytes32 12 32

/-! ## Amounts: `src/utils/format.ts` and viem `parseUnits`

`parseAmount(amount) = parseUnits(amount, PYUSD_DECIMALS)`.  viem
`parseUnits` first tests the input against `^(-?)([0-9]*)\.?([0-9]*)$`
(throwing `InvalidDecimalNumberError` on failure, modelled as `none`),
splits on `.`, trims trailing zeros of the fraction, rounds the fraction
off at `decimals` digits (half-up via `Math.round`), and assembles the
result with `BigInt` on the concatenated digit strings. -/

def PYUSD_DECIMALS : ℕ := 6

def isDigitChar (c : Char) : Bool :=
  decide ('0' ≤ c) && decide (c ≤ '9')

/-- The `([0-9]*)\.?([0-9]*)$` part of the viem decimal pattern. -/
def digitsDotDigits (s : List Char) : Bool :=
  match s.dropWhile isDigitChar with
  | [] => true
  | c :: rest => decide (c = '.') && rest.all isDigitChar

/-- The full viem pattern `^(-?)([0-9]*)\.?([0-9]*)$`. -/
def matchesDecimalPattern (s : List Char) : Bool :=
  match s with
  | '-' :: rest => digitsDotDigits rest
  | _ => digitsDotDigits s

/-- JS `value.split('.')` restricted to the first two parts:
the characters before the first `.`, and those after it when present. -/
def splitOnDot (s : List Char) : List Char × Option (List Char) :=
  (s.takeWhile (fun c => decide (c ≠ '.')),
   match s.dropWhile (fun c => decide (c ≠ '.')) with
   | [] => none
   | _ :: rest => some rest)

/-- JS `fraction.replace(/(0+)$/, '')`. -/
def trimTrailingZeros (l : List Char) : List Char :=
  (l.reverse.dropWhile (fun c => decide (c = '0'))).reverse

/-- JS `BigInt(digitString)` on a (possibly empty) string of digits;
`BigInt('') = 0n`. -/
def digitsToNat (l : List Char) : ℕ :=
  l.foldl (fun acc c => 10 * acc + (c.toNat - 48)) 0

/-- JS rendering of a natural number back to its decimal digit string. -/
def renderNat (n : ℕ) : List Char :=
  Nat.toDigits 10 n

/-- JS `str.padStart(n, '0')`. -/
def padStartZeros (l : List Char) (n : ℕ) : List Char :=
  List.replicate (n - l.length) '0' ++ l

/-- `Math.round(Number('.' + l)) = 1`, and likewise the `+1` carry of
`Math.round(Number(unit + '.' + l))`: true exactly when the decimal tail
`0.l` is ≥ 1/2, i.e. when the first digit is ≥ 5.  (`Number` itself rounds
to binary, which can only disagree for tails longer than about 16 digits;
such tails do not occur in this development.) -/
def headDigitGe5 (l : List Char) : Bool :=
  match l.head? with
  | some c => decide (53 ≤ c.toNat)
  | none => false

/-- viem `parseUnits(value, decimals)`; `none` models the
`InvalidDecimalNumberError` throw on input not matching the pattern. -/
def parseUnits (value : String) (decimals : ℕ) : Option ℤ :=
  if ¬ matchesDecimalPattern value.data then none
  else
    let p := splitOnDot value.data
    let integerRaw := p.1
    let fractionRaw := p.2.getD ['0']
    let negative := integerRaw.head? = some '-'
    let integer := if negative then integerRaw.tail else integerRaw
    let fraction := trimTrailingZeros fractionRaw
    let assembled :=
      if decimals = 0 then
        (if headDigitGe5 fraction then renderNat (digitsToNat integer + 1)
         else integer, ([] : List Char))
      else if decimals < fraction.length then
        let left := fraction.take (decimals - 1)
        let unit := digitsToNat ((fraction.drop (decimals - 1)).take 1)
        let right := fraction.drop decimals
        let rounded := unit + (if headDigitGe5 right then 1 else 0)
        let fractionA :=
          if 9 < rounded then
            padStartZeros (renderNat (digitsToNat left + 1) ++ ['0'])
              (left.length + 1)
          else left ++ renderNat rounded
        let carried :=
          if decimals < fractionA.length then
            (renderNat (digitsToNat integer + 1), fractionA.drop 1)
          else (integer, fractionA)
        (carried.1, carried.2.take decimals)
      else (integer, padStartZeros fraction decimals)
    let magnitude : ℤ := (digitsToNat (assembled.1 ++ assembled.2) : ℤ)
    some (if negative then -magnitude else magnitude)

/-- `parseAmount(amount) = parseUnits(amount, PYUSD_DECIMALS)`. -/
def parseAmount (amount : String) : Option ℤ :=
  parseUnits amount PYUSD_DECIMALS

/-- Round a rational to an integer, to nearest with ties to even — the
IEEE-754 default rounding applied to the scaled mantissa. -/
def roundTiesEven (y : ℚ) : ℤ :=
  if y - ⌊y⌋ < 1 / 2 then ⌊y⌋
  else if 1 / 2 < y - ⌊y⌋ then ⌊y⌋ + 1
  else if ⌊y⌋ % 2 = 0 then ⌊y⌋ else ⌊y⌋ + 1

/-- The exponent of one unit in the last place of a binary64 double near a
positive magnitude `q`: `2^(⌊log₂ q⌋ - 52)` for normal magnitudes, clamped
at the subnormal grid `2^-1074`. -/
def ulpExp (q : ℚ) : ℤ := max (Int.log 2 q - 52) (-1074)

/-- IEEE-754 binary64 rounding (round to nearest, ties to even) of an exact
rational: scale into the mantissa range by the ulp of the containing binade,
round to an integer ties-to-even, and scale back.  This is the rounding the
JS `*` operator applies to the exact product of its double operands.
(Magnitudes at and above `2^1024` overflow to `Infinity` in JS; that region
is not modelled — every theorem below evaluates `fl64` only on magnitudes
up to 20000.) -/
def fl64 (q : ℚ) : ℚ :=
  if q = 0 then 0
  else if 0 < q then (roundTiesEven (q / 2 ^ ulpExp q) : ℚ) * 2 ^ ulpExp q
  else -((roundTiesEven (-q / 2 ^ ulpExp (-q)) : ℚ) * 2 ^ ulpExp (-q))

/-- `calculateMinAmount(amount, slippagePercent)`:
`slippageBps = BigInt(Math.floor(slippagePercent * 100))` — the JS product
`slippagePercent * 100` is binary64 multiplication, i.e. the exact rational
product rounded by `fl64` (so e.g. slippage `0.69`, whose double value is
below 69/100, still yields 69 bps, while `0.57` yields 56 bps);
`Math.floor` on the resulting double is exact;
`minAmount = amount - (amount * slippageBps) / 10_000n` with bigint
division (truncation toward zero, `Int.tdiv`).
(For doubles beyond about `1.8e306` the product overflows to `Infinity` and
`BigInt(Math.floor(...))` throws a `RangeError`; that region is outside
every theorem below, all of which stay within slippage `[0, 100]` or at
concrete small values.) -/
def calculateMinAmount (amount : ℤ) (slippagePercent : ℚ) : ℤ :=
  let slippageBps : ℤ := ⌊fl64 (slippagePercent * 100)⌋
  amount - Int.tdiv (amount * slippageBps) 10000

/-! ## Execution-options encoder: `src/lib/options.ts`

`buildLzReceiveOptions` concatenates viem `toHex(value, {size})` blobs.
`toHex` on numeric input is viem `numberToHex`, which throws
`IntegerOutOfRangeError` when `value > 2^(8*size) - 1` (or `value < 0`) and
otherwise renders the value big-endian left-zero-padded to `size` bytes. -/

/-- Big-endian base-256 digits of `n`, exactly `size` bytes (truncating above
`2^(8*size)`; callers guard the range as viem does). -/
def beBytes : ℕ → ℕ → List ℕ
  | 0, _ => []
  | size + 1, n => beBytes size (n / 256) ++ [n % 256]

/-- Big-endian byte-list decoding, inverse of `beBytes`. -/
def fromBeBytes (l : List ℕ) : ℕ :=
  l.foldl (fun acc b => 256 * acc + b) 0

/-- viem `toHex(value, {size})` / `numberToHex` for unsigned numeric input:
`none` models the `IntegerOutOfRangeError` throw. -/
def numberToBytes (value : ℕ) (size : ℕ) : Option (List ℕ) :=
  if 2 ^ (8 * size) - 1 < value then none
  else some (beBytes size value)

def OPTION_TYPE_LZRECEIVE : ℕ := 1

def DEFAULT_GAS_LIMIT : ℕ := 200000

/-- `buildLzReceiveOptions(gasLimit)`:
`gasLimitBytes = toHex(gasLimit, {size: 16})`;
`optionData = concat([toHex(OPTION_TYPE_LZRECEIVE, {size: 1}), gasLimitBytes])`;
result `= concat([toHex(0x0003, {size: 2}), toHex(0x01, {size: 1}),
toHex(17, {size: 2}), optionData])`. -/
def buildLzReceiveOptions (gasLimit : ℕ) : Option (List ℕ) := do
  let gasLimitBytes ← numberToBytes gasLimit 16
  let optionTypeByte ← numberToBytes OPTION_TYPE_LZRECEIVE 1
  let optionData := optionTypeByte ++ gasLimitBytes
  let optionsType ← numberToBytes 3 2
  let workerId ← numberToBytes 1 1
  let sizeField ← numberToBytes 17 2
  return optionsType ++ workerId ++ sizeField ++ optionData

/-! ## OFT layer: `src/lib/oft.ts`

`OFT_SENT_EVENT_SIGNATURE = toEventSignature(OFT_SENT_EVENT)`: viem
`toEventSignature` renders the human-readable signature string
`Name(type,...)` of the ABI event (not its keccak-256 selector hash).
Receipt log topics are 0x-prefixed 32-byte hex strings. -/

def OFT_SENT_EVENT_SIGNATURE : String :=
  "OFTSent(bytes32,uint32,address,uint256,uint256)"

/-- A receipt log entry: its `topics` array of hex strings. -/
structure Log where
  topics : List String
  deriving DecidableEq

/-- The guid-extraction loop of `send`:
`let guid = '0x'; for (log of logs) if (log.topics[0] === SIG) { guid =
log.topics[1]; break }`.  `some s` is the JS string `s`; `none` is JS
`undefined` (`topics[1]` of a matching log with fewer than two topics). -/
def sendGuid : List Log → Option String
  | [] => some ("0x")
  | log :: rest =>
    if log.topics.head? = some OFT_SENT_EVENT_SIGNATURE then log.topics.get? 1
    else sendGuid rest

/-- `send` after the transaction is confirmed: the receipt's logs determine
`guid`, and the submission hash is returned alongside. -/
def send (txHash : String) (logs : List Log) : Option String × String :=
  (sendGuid logs, txHash)

/-- The chain state `checkAndApprove` reads: the OFT's `approvalRequired()`
answer, the `token()` accessor result (`none` when the call reverts, in which
case `getTokenAddress` falls back to the OFT address itself), the current
`allowance(owner, oft)`, and the hash the approval submission would get. -/
structure OftEnv where
  approvalRequired : Bool
  tokenAccessor : Option ℕ
  allowance : ℤ
  approveTx : ℕ
  deriving DecidableEq

/-- `getTokenAddress(client, oftAddress)`: `token()` if it answers, else the
OFT address itself. -/
def getTokenAddress (env : OftEnv) (oftAddress : ℕ) : ℕ :=
  match env.tokenAccessor with
  | some token => token
  | none => oftAddress

/-- One submitted `approve(spender, amount)` transaction on a token. -/
structure ApproveCall where
  token : ℕ
  spender : ℕ
  amount : ℤ
  deriving DecidableEq

/-- `checkAndApprove(walletClient, publicClient, oftAddress, amount)` returns
`{approved, txHash?}` paired with the list of approval transactions it
submitted. -/
def checkAndApprove (env : OftEnv) (oftAddress : ℕ) (amount : ℤ) :
    (Bool × Option ℕ) × List ApproveCall :=
  if !env.approvalRequired then ((false, none), [])
  else
    let tokenAddress := getTokenAddress env oftAddress
    if amount ≤ env.allowance then ((false, none), [])
    else
      let maxApproval : ℤ := 2 ^ 256 - 1
      ((true, some env.approveTx), [⟨tokenAddress, oftAddress, maxApproval⟩])

/-! ## Send command: `src/commands/send.ts` (SendParam construction)

`Send.run` parses the amount, computes the slippage floor, and assembles the
`SendParam`; `slippagePercent = Number.parseFloat(flags.slippage)` is taken
here as an exact rational argument. -/

structure SendParam where
  amountLD : ℤ
  composeMsg : List ℕ
  dstEid : ℕ
  extraOptions : List ℕ
  minAmountLD : ℤ
  oftCmd : List ℕ
  -- the `to` field of the TS interface (`to` is reserved in Lean)
  toWire : List ℕ
  deriving DecidableEq

/-- The SendParam construction in `Send.run`:
`amountLD = parseAmount(args.amount)`,
`minAmountLD = calculateMinAmount(amountLD, slippagePercent)`,
`to = addressToBytes32(recipientAddress)`,
`extraOptions = buildLzReceiveOptions(BigInt(flags.gas))`,
empty `composeMsg` / `oftCmd`.  No check of any kind is applied to
`amountLD` or `minAmountLD` on the way. -/
def buildSendParam (amountStr : String) (slippagePercent : ℚ) (gas : ℕ)
    (recipientAddress : List ℕ) (dstEid : ℕ) : Option SendParam := do
  let amountLD ← parseAmount amountStr
  let minAmountLD := calculateMinAmount amountLD slippagePercent
  let toWire ← addressToBytes32 recipientAddress
  let extraOptions ← buildLzReceiveOptions gas
  return { amountLD := amountLD, composeMsg := [], dstEid := dstEid,
           extraOptions := extraOptions, minAmountLD := minAmountLD,
           oftCmd := [], toWire := toWire }

/-! ## Chain configuration: `src/lib/chains.ts`

Keys are JS strings, modelled as lists of UTF-16 code units;
`chainKey.toLowerCase()` maps `A`–`Z` (65–90) to `a`–`z` and, on the ASCII
keys in use, nothing else.  The config table is the `CHAIN_CONFIGS` record
loaded at module start, modelled as an association list. -/

/-- Modelled from the spec: `minAmount = amount -
floor(amount * round(slippagePercent * 100) / 10000)` with `round` read as
rounding to the nearest integer. -/
def specMinAmountRounded (amount : ℤ) (slippagePercent : ℚ) : ℤ :=
  amount - ⌊((amount * round (slippagePercent * 100) : ℤ) : ℚ) / 10000⌋

/-- Modelled from the spec: the same formula with the intermediate rounding
taken as floor-truncation, per the spec's §9 note and the source's
`Math.floor` — applied, as the program does, to the binary64-rounded
product `fl64(slippagePercent * 100)`. -/
def specMinAmountFloor (amount : ℤ) (slippagePercent : ℚ) : ℤ :=
  amount - ⌊((amount * ⌊fl64 (slippagePercent * 100)⌋ : ℤ) : ℚ) / 10000⌋

/-! ## Helper lemmas -/

theorem beBytes_length (size n : ℕ) : (beBytes size n).length = size := by
  induction size generalizing n with
  | zero => rfl
  | succ k ih => simp [beBytes, ih]

theorem fromBeBytes_beBytes (size n : ℕ) :
    fromBeBytes (beBytes size n) = n % 256 ^ size := by
  induction size generalizing n with
  | zero => simp [beBytes, fromBeBytes, Nat.mod_one]
  | succ k ih =>
    have hsplit : (256 : ℕ) ^ (k + 1) = 256 * 256 ^ k := by ring
    have hfold : fromBeBytes (beBytes k (n / 256) ++ [n % 256])
        = 256 * fromBeBytes (beBytes k (n / 256)) + n % 256 := by
      simp [fromBeBytes, List.foldl_append]
    rw [beBytes, hfold, ih, hsplit, Nat.mod_mul]
    ring

theorem beBytes_byte_lt (size n : ℕ) : ∀ b ∈ beBytes size n, b < 256 := by
  induction size generalizing n with
  | zero => simp [beBytes]
  | succ k ih =>
    intro b hb
    rw [beBytes] at hb
    rcases List.mem_append.mp hb with h | h
    · exact ih _ _ h
    · have hb' : b = n % 256 := by simpa using h
      omega

theorem floor_intCast_div_10000 (n : ℤ) : ⌊((n : ℚ)) / 10000⌋ = n / 10000 := by
  have h := Rat.floor_intCast_div_natCast n 10000
  simpa using h

theorem rte_int (n : ℤ) : roundTiesEven ((n : ℚ)) = n := by
  norm_num [roundTiesEven]

theorem rte_nonneg (y : ℚ) (h : 0 ≤ y) : 0 ≤ roundTiesEven y := by
  have hf : (0 : ℤ) ≤ ⌊y⌋ := Int.floor_nonneg.mpr h
  unfold roundTiesEven
  split_ifs <;> omega

theorem rte_le_of_le_int (y : ℚ) (b : ℤ) (h : y ≤ b) : roundTiesEven y ≤ b := by
  have hfb : ⌊y⌋ ≤ b := by
    have h' := Int.floor_le_floor h
    simpa using h'
  have hlt : ¬(y - ⌊y⌋ < 1 / 2) → ⌊y⌋ + 1 ≤ b := by
    intro h1
    have hfrac : (1 : ℚ) / 2 ≤ y - ⌊y⌋ := not_lt.mp h1
    have hcast : ((⌊y⌋ : ℚ)) < (b : ℚ) := by linarith
    exact Int.add_one_le_iff.mpr (by exact_mod_cast hcast)
  unfold roundTiesEven
  split_ifs with h1 h2 h3
  · exact hfb
  · exact hlt h1
  · exact hfb
  · exact hlt h1

theorem int_log2_eq (q : ℚ) (e : ℤ) (h1 : (2 : ℚ) ^ e ≤ q)
    (h2 : q < 2 ^ (e + 1)) : Int.log 2 q = e := by
  have hq : 0 < q := lt_of_lt_of_le (by positivity) h1
  have ha : e ≤ Int.log 2 q :=
    (Int.zpow_le_iff_le_log (by norm_num) hq).mp (by exact_mod_cast h1)
  have hb : Int.log 2 q < e + 1 :=
    (Int.lt_zpow_iff_log_lt (by norm_num) hq).mp (by exact_mod_cast h2)
  omega

theorem ulpExp_eq (q : ℚ) (e : ℤ) (h1 : (2 : ℚ) ^ e ≤ q) (h2 : q < 2 ^ (e + 1))
    (h3 : -1022 ≤ e) : ulpExp q = e - 52 := by
  unfold ulpExp
  rw [int_log2_eq q e h1 h2]
  omega

theorem fl64_zero : fl64 0 = 0 := by simp [fl64]

theorem fl64_nonneg (q : ℚ) (h : 0 ≤ q) : 0 ≤ fl64 q := by
  rcases eq_or_lt_of_le h with h' | h'
  · rw [← h', fl64_zero]
  · unfold fl64
    rw [if_neg (ne_of_gt h'), if_pos h']
    have hr : (0 : ℤ) ≤ roundTiesEven (q / 2 ^ ulpExp q) :=
      rte_nonneg _ (by positivity)
    exact mul_nonneg (by exact_mod_cast hr) (by positivity)

theorem fl64_eq_self_of (q : ℚ) (n E : ℤ) (hq : 0 < q)
    (hE : ulpExp q = E) (hn : q = (n : ℚ) * 2 ^ E) : fl64 q = q := by
  unfold fl64
  rw [if_neg (ne_of_gt hq), if_pos hq, hE]
  have h2 : ((2 : ℚ)) ^ E ≠ 0 := zpow_ne_zero _ (by norm_num)
  rw [hn, mul_div_cancel_right₀ _ h2, rte_int]

theorem fl64_le_10000 (q : ℚ) (h0 : 0 ≤ q) (h : q ≤ 10000) : fl64 q ≤ 10000 := by
  rcases eq_or_lt_of_le h0 with h0' | h0'
  · rw [← h0', fl64_zero]; norm_num
  · unfold fl64
    rw [if_neg (ne_of_gt h0'), if_pos h0']
    have h13 : Int.log 2 (10000 : ℚ) = 13 :=
      int_log2_eq _ 13 (by norm_num) (by norm_num)
    have hlog : Int.log 2 q ≤ 13 := by
      have hm := Int.log_mono_right (b := 2) h0' h
      omega
    have hEle : ulpExp q ≤ -39 := by unfold ulpExp; omega
    obtain ⟨k, hk⟩ : ∃ k : ℕ, ulpExp q = -(k : ℤ) := ⟨(-ulpExp q).toNat, by omega⟩
    have hpow : (2 : ℚ) ^ ulpExp q = ((2 : ℚ) ^ k)⁻¹ := by
      rw [hk, zpow_neg, zpow_natCast]
    have h2pos : (0 : ℚ) < 2 ^ k := by positivity
    have hq2 : q / 2 ^ ulpExp q = q * 2 ^ k := by
      rw [hpow, div_eq_mul_inv, inv_inv]
    have hb : q * 2 ^ k ≤ ((10000 * 2 ^ k : ℤ) : ℚ) := by
      push_cast
      nlinarith
    have hrte : roundTiesEven (q * 2 ^ k) ≤ 10000 * 2 ^ k :=
      rte_le_of_le_int _ _ hb
    rw [hq2, hpow]
    calc ((roundTiesEven (q * 2 ^ k) : ℚ)) * ((2 : ℚ) ^ k)⁻¹
        ≤ ((10000 * 2 ^ k : ℤ) : ℚ) * ((2 : ℚ) ^ k)⁻¹ := by
          apply mul_le_mul_of_nonneg_right _ (by positivity)
          exact_mod_cast hrte
      _ = 10000 := by push_cast; field_simp

theorem fl64_50 : fl64 50 = 50 :=
  fl64_eq_self_of 50 (50 * 2 ^ 47) (-47) (by norm_num)
    (by rw [ulpExp_eq 50 5 (by norm_num) (by norm_num) (by norm_num)]; norm_num)
    (by push_cast; rw [zpow_neg]; norm_num)

theorem fl64_20000 : fl64 20000 = 20000 :=
  fl64_eq_self_of 20000 (20000 * 2 ^ 38) (-38) (by norm_num)
    (by rw [ulpExp_eq 20000 14 (by norm_num) (by norm_num) (by norm_num)]; norm_num)
    (by push_cast; rw [zpow_neg]; norm_num)

theorem fl64_sixtyEightPointSevenFive : fl64 (275 / 4) = 275 / 4 :=
  fl64_eq_self_of (275 / 4) (275 * 2 ^ 44) (-46) (by norm_num)
    (by rw [ulpExp_eq (275 / 4) 6 (by norm_num) (by norm_num) (by norm_num)]; norm_num)
    (by push_cast; rw [zpow_neg]; norm_num)

theorem sendGuid_sentinel_of_hex_topics (logs : List Log)
    (hhex : ∀ l ∈ logs, ∀ t0 ∈ l.topics.head?, t0.data.head? = some ('0')) :
    sendGuid logs = some ("0x") := by
  induction logs with
  | nil => rfl
  | cons l ls ih =>
    rw [sendGuid, if_neg]
    · exact ih fun l' hl' => hhex l' (List.mem_cons_of_mem _ hl')
    · intro hcontra
      have h0 := hhex l (List.mem_cons_self l ls) OFT_SENT_EVENT_SIGNATURE
        (Option.mem_def.mpr hcontra)
      exact absurd h0 (by decide)

/-! ## Claim C1 -/

/-- C1, counterexample: at `amount = 1000000`, `slippagePercent = 0.6875`
(exactly representable, `0.6875 * 100 = 68.75`), the code floors the
intermediate basis-point value to 68 while the claimed formula rounds it to
69, so `calculateMinAmount` differs from the claimed expression. -/
theorem calculateMinAmount_round_counterexample :
    calculateMinAmount 1000000 (11 / 16)
      ≠ specMinAmountRounded 1000000 (11 / 16) := by
  have hprod : (11 / 16 : ℚ) * 100 = 275 / 4 := by norm_num
  have h1 : ⌊fl64 ((11 / 16 : ℚ) * 100)⌋ = 68 := by
    rw [hprod, fl64_sixtyEightPointSevenFive]
    norm_num
  have h2 : round ((11 / 16 : ℚ) * 100) = 69 := by norm_num [round_eq]
  simp only [calculateMinAmount, specMinAmountRounded, h1, h2,
    floor_intCast_div_10000]
  decide

/-- C1, amended: for non-negative amount and slippage in `[0, 100]`,
`calculateMinAmount(amount, s) = amount - floor(amount * floor(fl64(s *
100)) / 10000)` — floor, not round, on the intermediate basis-point value,
which is the binary64-rounded product `fl64(s * 100)`, not the exact one;
in particular slippage 0 returns the amount unchanged, and
`calculateMinAmount(1000000, 0.5) = 995000` (`0.5 * 100 = 50` exactly). -/
theorem calculateMinAmount_floor_formula (amount : ℤ) (s : ℚ) :
    (0 ≤ amount → 0 ≤ s → s ≤ 100 →
      calculateMinAmount amount s = specMinAmountFloor amount s)
    ∧ calculateMinAmount amount 0 = amount
    ∧ calculateMinAmount 1000000 (1 / 2) = 995000 := by
  refine ⟨?_, ?_, ?_⟩
  · intro hamt hs _
    have hb0 : (0 : ℤ) ≤ ⌊fl64 (s * 100)⌋ :=
      Int.le_floor.mpr
        (by push_cast; exact fl64_nonneg _ (mul_nonneg hs (by norm_num)))
    simp only [calculateMinAmount, specMinAmountFloor, floor_intCast_div_10000]
    rw [Int.tdiv_eq_ediv (mul_nonneg hamt hb0) (by norm_num)]
  · have h0 : ⌊fl64 (0 : ℚ)⌋ = 0 := by
      rw [fl64_zero]
      norm_num
    simp [calculateMinAmount, h0, Int.zero_tdiv]
  · have h : ⌊fl64 ((1 / 2 : ℚ) * 100)⌋ = 50 := by
      rw [show (1 / 2 : ℚ) * 100 = 50 from by norm_num, fl64_50]
      norm_num
    simp only [calculateMinAmount, h]
    decide

/-- C1, witness for the amended claim at `amount = 1000000`,
`slippagePercent = 0.6875`. -/
theorem calculateMinAmount_floor_formula_witness :
    calculateMinAmount 1000000 (11 / 16) = specMinAmountFloor 1000000 (11 / 16) :=
  (calculateMinAmount_floor_formula 1000000 (11 / 16)).1 (by norm_num)
    (by norm_num) (by norm_num)

/-! ## Claim C2 -/

/-- C2, counterexample: at `gasLimit = 2^128` the hex-encoding step
(`toHex(gasLimit, {size: 16})`) throws `IntegerOutOfRangeError`, so
`buildLzReceiveOptions` does not return a 22-byte value for every
non-negative gas limit: there is a de-facto ceiling of `2^128 - 1`. -/
theorem buildLzReceiveOptions_ceiling_counterexample :
    buildLzReceiveOptions (2 ^ 128) = none := by
  unfold buildLzReceiveOptions numberToBytes
  rw [if_pos (by norm_num)]
  rfl

/-- C2, amended: for every `gasLimit < 2^128`, `buildLzReceiveOptions`
returns the 22-byte value `0x0003` (version) ++ `0x01` (worker id) ++
`0x0011` (option length 17) ++ `0x01` (option type) ++ the gas limit as a
16-byte big-endian unsigned integer; gas limits of 16 bytes and above are
rejected by the hex-encoding step, not by an explicit validation here. -/
theorem buildLzReceiveOptions_layout (gasLimit : ℕ) (h : gasLimit < 2 ^ 128) :
    buildLzReceiveOptions gasLimit
        = some ([0, 3] ++ [1] ++ [0, 17] ++ [1] ++ beBytes 16 gasLimit)
    ∧ ([0, 3] ++ [1] ++ [0, 17] ++ [1] ++ beBytes 16 gasLimit).length = 22
    ∧ (beBytes 16 gasLimit).length = 16
    ∧ fromBeBytes (beBytes 16 gasLimit) = gasLimit
    ∧ ∀ b ∈ beBytes 16 gasLimit, b < 256 := by
  have hpow : (2 : ℕ) ^ 128 = 340282366920938463463374607431768211456 := by
    norm_num
  have hgas : numberToBytes gasLimit 16 = some (beBytes 16 gasLimit) := by
    unfold numberToBytes
    rw [if_neg (by norm_num; omega)]
  have h1 : numberToBytes OPTION_TYPE_LZRECEIVE 1 = some [1] := by decide
  have h3 : numberToBytes 3 2 = some [0, 3] := by decide
  have hw : numberToBytes 1 1 = some [1] := by decide
  have h17 : numberToBytes 17 2 = some [0, 17] := by decide
  refine ⟨?_, ?_, beBytes_length 16 gasLimit, ?_, beBytes_byte_lt 16 gasLimit⟩
  · simp [buildLzReceiveOptions, hgas, h1, h3, hw, h17]
  · simp [beBytes_length]
  · rw [fromBeBytes_beBytes]
    omega

/-- C2, witness for the amended claim at the default gas limit 200000:
the exact 22-byte sequence `0x00030100110100000000000000000000000000030d40`. -/
theorem buildLzReceiveOptions_layout_witness :
    buildLzReceiveOptions 200000
      = some [0x00, 0x03, 0x01, 0x00, 0x11, 0x01, 0, 0, 0, 0, 0, 0, 0, 0, 0,
              0, 0, 0, 0, 0x03, 0x0d, 0x40] := by
  have h := (buildLzReceiveOptions_layout 200000 (by norm_num)).1
  rw [h]
  decide

/-! ## Claim C5 -/

/-- C5, counterexample: a 32-byte value whose leading 12 bytes are not all
zero (the first byte is 1) is not rejected: `bytes32ToAddress` does not
fail, it returns the trailing 20 bytes. -/
theorem bytes32ToAddress_no_failure_counterexample :
    bytes32ToAddress (1 :: List.replicate 31 0) ≠ none
    ∧ bytes32ToAddress (1 :: List.replicate 31 0)
        = some (List.replicate 20 0) := by
  decide

/-- C5, amended: for every 32-byte value, `bytes32ToAddress` returns the
trailing 20 bytes; no `InvalidAddress` check of the leading 12 bytes is
performed. -/
theorem bytes32ToAddress_takes_trailing (b : List ℕ) (h : b.length = 32) :
    bytes32ToAddress b = some (b.drop 12) ∧ (b.drop 12).length = 20 := by
  constructor
  · unfold bytes32ToAddress sliceHex
    rw [if_neg (by omega)]
    congr 1
    have hd : (b.drop 12).length = 20 := by simp [h]
    calc (b.drop 12).take (32 - 12) = (b.drop 12).take 20 := by norm_num
      _ = b.drop 12 := by rw [← hd]; exact List.take_length _
  · simp [h]

/-- C5, witness for the amended claim on a concrete 32-byte value. -/
theorem bytes32ToAddress_takes_trailing_witness :
    bytes32ToAddress (255 :: List.replicate 31 7)
      = some ((255 :: List.replicate 31 7).drop 12) :=
  (bytes32ToAddress_takes_trailing (255 :: List.replicate 31 7) (by decide)).1

/-! ## Claim C6 -/

/-- C6: for every 20-byte address `a`,
`bytes32ToAddress(addressToBytes32(a)) = a`: left-padding with 12 zero
bytes followed by taking the trailing 20 bytes is the identity. -/
theorem addressToWire_roundtrip (a : List ℕ) (h : a.length = 20) :
    (addressToBytes32 a).bind bytes32ToAddress = some a := by
  unfold addressToBytes32 padHex
  rw [if_neg (by omega), h]
  show bytes32ToAddress (List.replicate (32 - 20) 0 ++ a) = some a
  unfold bytes32ToAddress sliceHex
  rw [if_neg (by simp [h])]
  congr 1
  have hdrop := List.drop_left (List.replicate 12 (0 : ℕ)) a
  rw [List.length_replicate] at hdrop
  show ((List.replicate 12 (0 : ℕ) ++ a).drop 12).take (32 - 12) = a
  rw [hdrop]
  calc a.take (32 - 12) = a.take 20 := by norm_num
    _ = a := by rw [← h]; exact List.take_length a

/-- C6, witness at a concrete 20-byte address. -/
theorem addressToWire_roundtrip_witness :
    (addressToBytes32 (List.range 20)).bind bytes32ToAddress
      = some (List.range 20) :=
  addressToWire_roundtrip (List.range 20) (by decide)

/-! ## Claim C3 -/

/-- C3: `checkAndApprove` submits an approval transaction exactly when the
OFT requires approval and the current allowance is strictly below the
requested amount; in every other case it returns `approved = false` having
submitted nothing (so a repeat call under sufficient allowance is a no-op);
when it does approve, it approves `2^256 - 1` on the resolved token for the
OFT spender and returns `approved = true` with the transaction hash. -/
theorem checkAndApprove_at_most_once (env : OftEnv) (oft : ℕ) (amount : ℤ) :
    ((checkAndApprove env oft amount).2 ≠ []
        ↔ env.approvalRequired = true ∧ env.allowance < amount)
    ∧ (env.approvalRequired = false →
        checkAndApprove env oft amount = ((false, none), []))
    ∧ (amount ≤ env.allowance →
        checkAndApprove env oft amount = ((false, none), []))
    ∧ (env.approvalRequired = true → env.allowance < amount →
        checkAndApprove env oft amount
          = ((true, some env.approveTx),
             [⟨getTokenAddress env oft, oft, 2 ^ 256 - 1⟩])) := by
  unfold checkAndApprove
  rcases env with ⟨req, tok, allow, tx⟩
  cases req
  · simp
  · by_cases hle : amount ≤ allow
    · simp [hle, not_lt.mpr hle]
    · simp [hle, lt_of_not_le hle]

/-- C3, witness: approval required, allowance 3 below requested 10 submits
one max-uint256 approval and reports it. -/
theorem checkAndApprove_at_most_once_witness :
    checkAndApprove ⟨true, some 7, 3, 99⟩ 5 10
      = ((true, some 99), [⟨7, 5, 2 ^ 256 - 1⟩]) :=
  (checkAndApprove_at_most_once ⟨true, some 7, 3, 99⟩ 5 10).2.2.2
    (by decide) (by decide)

/-! ## Claim C4 -/

/-- C4: the guid-extraction scan in `send` compares each log's first topic
with `toEventSignature(OFT_SENT_EVENT)`, the human-readable signature
string, never equal to an actual topic (a 0x-prefixed 32-byte hash), so for
every confirmed receipt whose topics are hex strings — including receipts
that do contain a genuine OFTSent log — `send` returns the `'0x'` sentinel
instead of the guid topic, contradicting the claim and the repository's own
documentation (`CODE_REVIEW.md`, `BLOG_POST.md`). -/
theorem send_guid_always_sentinel (txHash : String) (logs : List Log)
    (hhex : ∀ l ∈ logs, ∀ t0 ∈ l.topics.head?, t0.data.head? = some ('0')) :
    send txHash logs = (some ("0x"), txHash) := by
  unfold send
  rw [sendGuid_sentinel_of_hex_topics logs hhex]

/-- The keccak-256 selector of
`OFTSent(bytes32,uint32,address,uint256,uint256)`: the topic an actual
OFTSent log carries in position 0. -/
def oftSentKeccakTopic : String :=
  "0x85496b760a4b7f8d66384b9df21b381f5d1b1e79f229a47aaf4c232edc2fe59a"

/-- A sample guid topic for a concrete failing receipt. -/
def sampleGuidTopic : String :=
  "0x0101010101010101010101010101010101010101010101010101010101010101"

/-- C4, witness at a concrete receipt containing a genuine OFTSent log:
the guid topic is present in the log but the sentinel is returned. -/
theorem send_guid_always_sentinel_witness :
    send ("0xtxhash") [⟨[oftSentKeccakTopic, sampleGuidTopic]⟩]
      = (some ("0x"), "0xtxhash") :=
  send_guid_always_sentinel ("0xtxhash")
    [⟨[oftSentKeccakTopic, sampleGuidTopic]⟩] (by decide)

/-! ## Claim C7 -/

/-- C8: for every `amount ≥ 0` and slippage in `[0, 100]`,
`0 ≤ calculateMinAmount(amount, slippagePercent) ≤ amount`. -/
theorem calculateMinAmount_bounds (amount : ℤ) (s : ℚ)
    (hamt : 0 ≤ amount) (h0 : 0 ≤ s) (h100 : s ≤ 100) :
    0 ≤ calculateMinAmount amount s ∧ calculateMinAmount amount s ≤ amount := by
  have hb0 : (0 : ℤ) ≤ ⌊fl64 (s * 100)⌋ :=
    Int.le_floor.mpr
      (by push_cast; exact fl64_nonneg _ (mul_nonneg h0 (by norm_num)))
  have hb1 : ⌊fl64 (s * 100)⌋ ≤ 10000 := by
    have hle : fl64 (s * 100) ≤ 10000 :=
      fl64_le_10000 _ (mul_nonneg h0 (by norm_num)) (by nlinarith)
    have := Int.floor_le_floor hle
    simpa using this
  have htd : Int.tdiv (amount * ⌊fl64 (s * 100)⌋) 10000
      = amount * ⌊fl64 (s * 100)⌋ / 10000 :=
    Int.tdiv_eq_ediv (mul_nonneg hamt hb0) (by norm_num)
  simp only [calculateMinAmount, htd]
  constructor
  · have hmono : amount * ⌊fl64 (s * 100)⌋ / 10000 ≤ amount * 10000 / 10000 :=
      Int.ediv_le_ediv (by norm_num) (mul_le_mul_of_nonneg_left hb1 hamt)
    have hcancel : amount * (10000 : ℤ) / 10000 = amount :=
      Int.mul_ediv_cancel amount (by norm_num)
    omega
  · have hnn : (0 : ℤ) ≤ amount * ⌊fl64 (s * 100)⌋ / 10000 :=
      Int.ediv_nonneg (mul_nonneg hamt hb0) (by norm_num)
    omega

/-- C8, witness at `amount = 1000000`, slippage 0.5. -/
theorem calculateMinAmount_bounds_witness :
    0 ≤ calculateMinAmount 1000000 (1 / 2)
    ∧ calculateMinAmount 1000000 (1 / 2) ≤ 1000000 :=
  calculateMinAmount_bounds 1000000 (1 / 2) (by norm_num) (by norm_num)
    (by norm_num)

/-! ## Claim C9 -/

/-- C9: `calculateMinAmount` applies no range check to the slippage: at
`amount = 1000000`, `slippagePercent = 200` it returns the strictly
negative value `-1000000`, and this value flows unmodified into the
`minAmountLD` field of the transfer descriptor built by `Send.run`. -/
theorem slippage_unvalidated_negative_minAmount :
    calculateMinAmount 1000000 200 = -1000000
    ∧ ((-1000000 : ℤ) < 0)
    ∧ (buildSendParam ("1") 200 200000 (List.replicate 20 18) 30110).map
        SendParam.minAmountLD = some (-1000000) := by
  have hbps : ⌊fl64 ((200 : ℚ) * 100)⌋ = 20000 := by
    rw [show (200 : ℚ) * 100 = 20000 from by norm_num, fl64_20000]
    norm_num
  have hmin : calculateMinAmount 1000000 200 = -1000000 := by
    simp only [calculateMinAmount, hbps]
    decide
  refine ⟨hmin, by norm_num, ?_⟩
  have hp : parseAmount ("1") = some 1000000 := by decide
  have ho : buildLzReceiveOptions 200000
      = some [0, 3, 1, 0, 17, 1, 0, 0, 0, 0, 0, 0, 0, 0, 0, 0, 0, 0, 0,
              3, 13, 64] := by decide
  simp [buildSendParam, hp, ho, hmin]
  decide

/-! ## Claim C10 -/

end PyusdLz
